import Mathlib

/-
Verification development for the microclimate-sensor-analysis repository,
core pipeline `src/exploration/combine_raw_data.py`.

Shallow-embedding conventions:

* Timestamps are integers (seconds since an arbitrary epoch).  A pandas
  `Timestamp` is modelled as an absolute instant `utc : Int` plus an optional
  timezone tag `tz : Option String`; `tz_localize "UTC"` on a naive timestamp
  and `tz_convert` both leave the instant unchanged and only change the tag,
  exactly as in pandas (a naive value is stored as its as-if-UTC instant).
  Comparisons between timestamps compare instants.
* Metric values (sensor floats) are modelled as exact unnormalized rationals
  `Frac` (numerator/denominator); no claim depends on the numeric value of a
  mean, only on its null/non-null status, so exact rational arithmetic is a
  faithful stand-in for float arithmetic here.  The float32 downcast of the
  writer (lines 205-208) is value-irrelevant to every claim and is not
  modelled (floating point).
* `df.resample(freq, label=...)` with a tick frequency ("15T", "1h", "1D")
  uses pandas defaults `closed='left'`: bins are the half-open intervals
  [k*c, (k+1)*c); `label='right'` labels a bin by its right edge (k+1)*c,
  the default `label='left'` by its left edge k*c.  Bins are generated
  consecutively from the bin of the smallest index value to the bin of the
  largest; empty intermediate bins yield all-null mean rows.  Bin anchoring
  (pandas `origin='start_day'`) is modelled as epoch-anchored; every claim at
  stake concerns edge labeling and interval closedness, which are unaffected
  by the anchor.
* The Python dict `device_install_dates` is an insertion-ordered association
  list with overwrite-on-duplicate-key (`dictInsert`).
* Python `filtered_count / original_count` raises `ZeroDivisionError` when
  `original_count == 0`; the model makes that an explicit error case, placed
  exactly where line 129 of the source sits relative to the other checks.
* Console prints that the claims refer to (the per-device install-date
  warnings) are modelled as a list of `LogEvent`s.
-/

/-- An exact rational, kept unnormalized: `num / den`. -/
structure Frac where
  num : Int
  den : Nat
deriving DecidableEq, Repr

def Frac.add (x y : Frac) : Frac :=
  ⟨x.num * (y.den : Int) + y.num * (x.den : Int), x.den * y.den⟩

def Frac.divNat (x : Frac) (n : Nat) : Frac := ⟨x.num, x.den * n⟩

/-- Mean aggregation over a column, pandas `.mean()` semantics: nulls are
skipped; the mean of an all-null (or empty) collection is null. -/
def meanOpt (xs : List (Option Frac)) : Option Frac :=
  match xs.filterMap id with
  | [] => none
  | v :: vt => some (Frac.divNat (vt.foldl Frac.add v) (vt.length + 1))

/-- A pandas Timestamp: absolute instant plus optional timezone tag. -/
structure Timestamp where
  utc : Int
  tz : Option String
deriving DecidableEq, Repr

/-- One row of the raw readings DataFrame (time index, `dev-id`,
`humidity`, `temperature` — the numeric columns of the documented data). -/
structure RawRow where
  time : Int
  dev : String
  humidity : Option Frac
  temperature : Option Frac
deriving DecidableEq, Repr

/-- The raw readings DataFrame: presence of the `dev-id` column, the
timezone of the DatetimeIndex (`df.index.tz`), and the rows. -/
structure RawFrame where
  hasDevId : Bool
  indexTz : Option String
  rows : List RawRow
deriving DecidableEq, Repr

/-- One metadata record (GeoJSON feature): `id`, and the two alternate
install-date properties; `none` models a missing-or-NaN field
(`pd.notna(row.get(...))` false). Field values are unparsed strings. -/
structure GeoRow where
  id : String
  date_installed : Option String
  asennettu_pvm : Option String
deriving DecidableEq, Repr

/-- The metadata GeoDataFrame: presence of the `id` column plus records. -/
structure GeoFrame where
  hasId : Bool
  rows : List GeoRow
deriving DecidableEq, Repr

/-- One row of the aggregated device output. -/
structure AggRow where
  time : Int
  dev : String
  humidity : Option Frac
  temperature : Option Frac
deriving DecidableEq, Repr

/-- The persisted parquet artifact: its rows plus the closed category set of
the `dev-id` categorical column. -/
structure Artifact where
  rows : List AggRow
  categories : List String
deriving DecidableEq, Repr

inductive PipelineError where
  | schemaErrorDevId
  | schemaErrorId
  | zeroDivisionError
  | noMatchingDevices
deriving DecidableEq, Repr

def exceptDecEq {ε α : Type} [DecidableEq ε] [DecidableEq α] :
    DecidableEq (Except ε α) := fun x y =>
  match x, y with
  | Except.error e, Except.error f =>
    match decEq e f with
    | isTrue h => isTrue (congrArg Except.error h)
    | isFalse h => isFalse (fun hh => h (Except.error.inj hh))
  | Except.error _, Except.ok _ => isFalse (fun hh => Except.noConfusion hh)
  | Except.ok _, Except.error _ => isFalse (fun hh => Except.noConfusion hh)
  | Except.ok a, Except.ok b =>
    match decEq a b with
    | isTrue h => isTrue (congrArg Except.ok h)
    | isFalse h => isFalse (fun hh => h (Except.ok.inj hh))

instance {ε α : Type} [DecidableEq ε] [DecidableEq α] : DecidableEq (Except ε α) :=
  exceptDecEq

inductive LogEvent where
  | cutoffSet (id : String)
  | parseError (id : String) (raw : String)
  | noInstallDate (id : String)
deriving DecidableEq, Repr

/-! ### Metadata registry (source lines 80-116) -/

/-- Install date selection, lines 86-89: `Date_installed` if present
(`pd.notna`), else `Asennettu_pvm`, else none. -/
def installDateOf (g : GeoRow) : Option String :=
  match g.date_installed with
  | some s => some s
  | none => g.asennettu_pvm

/-- Timezone normalization of a cutoff, lines 98-105: only when the raw
index is timezone-aware; a naive cutoff is localized to UTC, an aware cutoff
with a different timezone is converted (instant unchanged). -/
def normalizeCutoff (indexTz : Option String) (cd : Timestamp) : Timestamp :=
  match indexTz with
  | none => cd
  | some z =>
    match cd.tz with
    | none => { cd with tz := some "UTC" }
    | some z2 => if z2 ≠ z then { cd with tz := some z } else cd

def oneDay : Int := 86400

/-- The derived cutoff of one metadata record, lines 83-107: the chosen
install-date field parsed (`pd.to_datetime`, supplied as `parse`), plus one
day, timezone-normalized; `none` when the field is absent or unparseable. -/
def cutoffOfRow (parse : String → Option Timestamp) (indexTz : Option String)
    (g : GeoRow) : Option Timestamp :=
  match installDateOf g with
  | none => none
  | some s =>
    match parse s with
    | none => none
    | some t => some (normalizeCutoff indexTz ⟨t.utc + oneDay, t.tz⟩)

/-- Python-dict insert: overwrite in place when the key exists, else append. -/
def dictInsert (m : List (String × Timestamp)) (k : String) (v : Timestamp) :
    List (String × Timestamp) :=
  if m.any (fun p => p.1 == k) then
    m.map (fun p => if p.1 == k then (k, v) else p)
  else m ++ [(k, v)]

def dictLookup (m : List (String × Timestamp)) (k : String) : Option Timestamp :=
  match m with
  | [] => none
  | p :: ps => if p.1 = k then some p.2 else dictLookup ps k

/-- Effect of one loop iteration (lines 81-116) on `device_install_dates`. -/
def registryStepMap (parse : String → Option Timestamp) (indexTz : Option String)
    (m : List (String × Timestamp)) (g : GeoRow) : List (String × Timestamp) :=
  match cutoffOfRow parse indexTz g with
  | none => m
  | some cd => dictInsert m g.id cd

/-- Console output of one loop iteration: the success print (line 108), the
parse-failure warning (line 112), or the missing-date warning (line 114). -/
def registryStepLog (parse : String → Option Timestamp) (g : GeoRow) : List LogEvent :=
  match installDateOf g with
  | none => [LogEvent.noInstallDate g.id]
  | some s =>
    match parse s with
    | none => [LogEvent.parseError g.id s]
    | some _ => [LogEvent.cutoffSet g.id]

/-- The `device_install_dates` dict after the whole loop. -/
def buildCutoffMap (parse : String → Option Timestamp) (indexTz : Option String)
    (gdf : List GeoRow) : List (String × Timestamp) :=
  gdf.foldl (registryStepMap parse indexTz) []

/-- Everything the loop printed. -/
def buildLog (parse : String → Option Timestamp) (gdf : List GeoRow) : List LogEvent :=
  (gdf.map (registryStepLog parse)).flatten

/-! ### Device filter and installation-window filter (lines 118-160) -/

/-- Line 124: keep rows whose `dev-id` is a known metadata id. -/
def deviceFiltered (df : RawFrame) (gdf : GeoFrame) : List RawRow :=
  df.rows.filter (fun r => (gdf.rows.map (fun g => g.id)).contains r.dev)

/-- Line 153's mask for one device: keep a row iff it is not this device's,
or its timestamp is at or after the cutoff. -/
def keepRow (p : String × Timestamp) (r : RawRow) : Bool :=
  !(r.dev == p.1) || decide (p.2.utc ≤ r.time)

/-- Lines 139-153: one dataset-wide filter pass per (device, cutoff) entry. -/
def installFilter (rows : List RawRow) (cutoffs : List (String × Timestamp)) :
    List RawRow :=
  cutoffs.foldl (fun acc p => acc.filter (keepRow p)) rows

/-- The per-row survival predicate the spec states for the window filter. -/
def survives (cutoffs : List (String × Timestamp)) (r : RawRow) : Bool :=
  match dictLookup cutoffs r.dev with
  | none => true
  | some cd => decide (cd.utc ≤ r.time)

/-! ### Per-group aggregator (lines 162-196 and 274-299) -/

/-- Left edge of the cadence-`c` bin containing `t` (bins `[k*c, (k+1)*c)`,
pandas `closed='left'` default for tick frequencies). -/
def bucketStart (c t : Int) : Int := c * (t / c)

/-- Bin label under `label='right'` (device pipeline, line 179). -/
def bucketLabelRight (c t : Int) : Int := bucketStart c t + c

/-- Bin label under the default `label='left'` (station pipeline, line 283). -/
def bucketLabelLeft (c t : Int) : Int := bucketStart c t

def listMin (x : Int) (l : List Int) : Int := l.foldl min x

def listMax (x : Int) (l : List Int) : Int := l.foldl max x

/-- Consecutive bin labels from `lo` to `hi` in steps of `c`. -/
def labelRange (c lo hi : Int) : List Int :=
  (List.range (((hi - lo) / c).toNat + 1)).map (fun (k : Nat) => lo + c * (k : Int))

/-- The mean-resampled bins of one entity's rows: one bin per label from the
first to the last occupied bin, carrying the mean of each metric column. -/
structure Bin where
  label : Int
  a : Option Frac
  b : Option Frac
deriving DecidableEq, Repr

/-- The rows falling in the bin labeled `L` under labeling `lab`. -/
def binRowsBy {α : Type} (timeOf : α → Int) (lab : Int → Int) (L : Int)
    (rows : List α) : List α :=
  rows.filter (fun x => decide (lab (timeOf x) = L))

def resampleBy {α : Type} (timeOf : α → Int) (f g : α → Option Frac)
    (lab : Int → Int) (c : Int) (rows : List α) : List Bin :=
  match rows with
  | [] => []
  | r :: rs =>
    let lo := lab (listMin (timeOf r) (rs.map timeOf))
    let hi := lab (listMax (timeOf r) (rs.map timeOf))
    (labelRange c lo hi).map (fun L =>
      let br := binRowsBy timeOf lab L (r :: rs)
      ⟨L, meanOpt (br.map f), meanOpt (br.map g)⟩)

/-- The raw readings the device pipeline summarizes into the bucket
labeled `L` at cadence `c`. -/
def binMembersRight (c L : Int) (rows : List RawRow) : List RawRow :=
  binRowsBy (fun r => r.time) (bucketLabelRight c) L rows

/-- Lines 174-188 for one device: restrict to the device, resample with
right-edge labels, re-attach the id, drop all-null buckets. -/
def aggregateDevice (c : Int) (d : String) (rows : List RawRow) : List AggRow :=
  let dd := rows.filter (fun r => decide (r.dev = d))
  (resampleBy (fun r => r.time) (fun r => r.humidity) (fun r => r.temperature)
      (bucketLabelRight c) c dd).filterMap
    (fun b => if b.a.isSome || b.b.isSome then some ⟨b.label, d, b.a, b.b⟩ else none)

def firstUniq (l : List String) : List String :=
  l.foldl (fun acc x => if x ∈ acc then acc else acc ++ [x]) []

/-- Lines 172-191: aggregate each device in first-appearance order and
concatenate (`pd.concat`). -/
def aggregatedRows (c : Int) (rows : List RawRow) : List AggRow :=
  ((firstUniq (rows.map (fun r => r.dev))).map (fun d => aggregateDevice c d rows)).flatten

def timeLE (x y : AggRow) : Prop := x.time ≤ y.time

instance : DecidableRel timeLE := fun x y => inferInstanceAs (Decidable (x.time ≤ y.time))

instance : IsTotal AggRow timeLE := ⟨fun x y => Int.le_total x.time y.time⟩

instance : IsTrans AggRow timeLE := ⟨fun _ _ _ h1 h2 => Int.le_trans h1 h2⟩

/-- Line 192 `sort_index()`: sort by the time index alone.  Modelled as a
stable sort; pandas's default sort kind gives no stronger guarantee about
rows with equal timestamps. -/
def sortAggByTime (l : List AggRow) : List AggRow := List.insertionSort timeLE l

/-! ### Compact encoder / writer (lines 199-235) -/

/-- Executable code-point comparison on strings (Python `sorted` order). -/
def charListLt : List Char → List Char → Bool
  | [], [] => false
  | [], _ :: _ => true
  | _ :: _, [] => false
  | c :: cs, d :: ds =>
    if c.val < d.val then true else if d.val < c.val then false else charListLt cs ds

def strLtB (x y : String) : Bool := charListLt x.data y.data

def strLeP (x y : String) : Prop := strLtB y x = false

instance : DecidableRel strLeP := fun x y => inferInstanceAs (Decidable (strLtB y x = false))

/-- Line 213: `sorted(list(valid_device_ids))`, the distinct metadata ids in
ascending order — the closed category set of the `dev-id` column. -/
def sortedIds (ids : List String) : List String :=
  List.insertionSort strLeP (firstUniq ids)

/-! ### The device pipeline `save_aggregated_data` (lines 51-237) -/

/-- The whole function: schema checks (lines 73-77), device filter
(line 124), retained-fraction report whose division fails on an empty input
(line 129), empty-overlap check (line 132), per-device window filter
(lines 139-153), per-device aggregation and sort (lines 162-196), and the
writer (lines 199-228), which persists an artifact only when the aggregate
is nonempty.  Returns the DataFrame the function returns plus the written
artifact, or the error that aborted the run (no artifact written). -/
def save_aggregated_data (parse : String → Option Timestamp) (c : Int)
    (df : RawFrame) (gdf : GeoFrame) :
    Except PipelineError (List AggRow × Option Artifact) :=
  if df.hasDevId = false then Except.error PipelineError.schemaErrorDevId
  else if gdf.hasId = false then Except.error PipelineError.schemaErrorId
  else if df.rows.length = 0 then Except.error PipelineError.zeroDivisionError
  else if (deviceFiltered df gdf).isEmpty then Except.error PipelineError.noMatchingDevices
  else
    let cutoffs := buildCutoffMap parse df.indexTz gdf.rows
    let windowed := installFilter (deviceFiltered df gdf) cutoffs
    let agg := sortAggByTime (aggregatedRows c windowed)
    if agg.isEmpty then Except.ok (agg, none)
    else Except.ok (agg, some ⟨agg, sortedIds (gdf.rows.map (fun g => g.id))⟩)

/-! ### The station pipeline `combine_fmi_data` (lines 240-308) -/

/-- One row of the FMI station data: time index, `Station`, weather metric
columns, and the near-constant `fmisid` identifier column. -/
structure StationRow where
  time : Int
  station : String
  humidity : Option Frac
  temperature : Option Frac
  fmisid : Option Frac
deriving DecidableEq, Repr

/-- One row of the aggregated station output. -/
structure StAggRow where
  time : Int
  station : String
  humidity : Option Frac
  temperature : Option Frac
  fmisid : Option Frac
deriving DecidableEq, Repr

def fmiAllowList : List String :=
  ["Helsinki Kaisaniemi", "Helsinki Kumpula", "Helsinki Malmi lentokenttä",
   "Helsinki Harmaja", "Vantaa Helsinki-Vantaan lentoasema"]

/-- 2024-05-01T00:00:00Z, the fixed epoch cutoff of line 261. -/
def fmiEpoch : Int := 1714521600

/-- The station readings summarized into the bucket labeled `L`. -/
def binMembersLeft (c L : Int) (rows : List StationRow) : List StationRow :=
  binRowsBy (fun r => r.time) (bucketLabelLeft c) L rows

/-- Line 289: `station_data["fmisid"].iloc[0]` (first row of the station's
data), used to overwrite the whole `fmisid` column. -/
def stationFmisid (sd : List StationRow) : Option Frac :=
  match sd with
  | [] => none
  | r0 :: _ => r0.fmisid

/-- Lines 279-295 for one station: resample with default (left-edge) labels,
overwrite `Station` and `fmisid`, then `dropna(how="all",
subset=numeric_columns)`.  `fmisidNumeric` records whether the input's
`fmisid` column has a numeric dtype: if so it is part of `numeric_columns`
and hence of the dropna subset — after being overwritten with the
(non-null) first observed value. -/
def aggregateStation (fmisidNumeric : Bool) (c : Int) (s : String)
    (rows : List StationRow) : List StAggRow :=
  let sd := rows.filter (fun r => decide (r.station = s))
  (resampleBy (fun r => r.time) (fun r => r.humidity) (fun r => r.temperature)
      (bucketLabelLeft c) c sd).filterMap
    (fun b =>
      if b.a.isSome || b.b.isSome || (fmisidNumeric && (stationFmisid sd).isSome) then
        some ⟨b.label, s, b.a, b.b, stationFmisid sd⟩
      else none)

def stTimeLE (x y : StAggRow) : Prop := x.time ≤ y.time

instance : DecidableRel stTimeLE := fun x y => inferInstanceAs (Decidable (x.time ≤ y.time))

instance : IsTotal StAggRow stTimeLE := ⟨fun x y => Int.le_total x.time y.time⟩

instance : IsTrans StAggRow stTimeLE := ⟨fun _ _ _ h1 h2 => Int.le_trans h1 h2⟩

def sortStAggByTime (l : List StAggRow) : List StAggRow := List.insertionSort stTimeLE l

/-- Lines 259-299: concatenated inputs, epoch filter, allow-list filter,
per-station aggregation in first-appearance order, concatenation, sort by
the time index (the second, cadence-aggregated artifact of the pipeline). -/
def combine_fmi_data_aggregated (fmisidNumeric : Bool) (c : Int)
    (rows : List StationRow) : List StAggRow :=
  let kept := ((rows.filter (fun r => decide (fmiEpoch ≤ r.time))).filter
    (fun r => fmiAllowList.contains r.station))
  sortStAggByTime
    (((firstUniq (kept.map (fun r => r.station))).map
      (fun s => aggregateStation fmisidNumeric c s kept)).flatten)

/-! ### Helper lemmas: bin arithmetic -/

theorem scaled_ediv_eq_iff (c t Q : Int) (hc : 0 < c) :
    c * (t / c) = Q ↔ c ∣ Q ∧ Q ≤ t ∧ t < Q + c := by
  constructor
  · rintro rfl
    refine ⟨Dvd.intro _ rfl, ?_, ?_⟩
    · have h1 := Int.ediv_add_emod t c
      have h2 := Int.emod_nonneg t (ne_of_gt hc)
      linarith
    · have h1 := Int.ediv_add_emod t c
      have h3 := Int.emod_lt_of_pos t hc
      linarith
  · rintro ⟨⟨m, rfl⟩, h1, h2⟩
    have hge : m ≤ t / c := by
      have h := Int.ediv_le_ediv hc h1
      rwa [Int.mul_ediv_cancel_left m (ne_of_gt hc)] at h
    have hle : t / c ≤ m := by
      have ht : t ≤ c - 1 + m * c := by
        have hcm : c * m = m * c := mul_comm c m
        linarith
      have h4 : (c - 1 + m * c) / c = (c - 1) / c + m :=
        Int.add_mul_ediv_right _ _ (ne_of_gt hc)
      have h5 : (c - 1) / c = 0 := Int.ediv_eq_zero_of_lt (by linarith) (by linarith)
      have h6 := Int.ediv_le_ediv hc ht
      rw [h4, h5] at h6
      linarith
    have hq : t / c = m := le_antisymm hle hge
    rw [hq]

theorem bucketLabelRight_eq_iff (c t L : Int) (hc : 0 < c) :
    bucketLabelRight c t = L ↔ c ∣ L ∧ L - c ≤ t ∧ t < L := by
  unfold bucketLabelRight bucketStart
  have h := scaled_ediv_eq_iff c t (L - c) hc
  constructor
  · intro hh
    have hq : c * (t / c) = L - c := by linarith
    obtain ⟨hd, h1, h2⟩ := h.mp hq
    refine ⟨?_, by linarith, by linarith⟩
    have hL : L = L - c + c := by ring
    rw [hL]
    exact dvd_add hd dvd_rfl
  · rintro ⟨hd, h1, h2⟩
    have hd2 : c ∣ L - c := dvd_sub hd dvd_rfl
    have hq : c * (t / c) = L - c := h.mpr ⟨hd2, by linarith, by linarith⟩
    linarith

theorem bucketLabelLeft_eq_iff (c t L : Int) (hc : 0 < c) :
    bucketLabelLeft c t = L ↔ c ∣ L ∧ L ≤ t ∧ t < L + c := by
  unfold bucketLabelLeft bucketStart
  exact scaled_ediv_eq_iff c t L hc

theorem scaledAdd_mem_labelRange (c o m M t : Int) (hc : 0 < c) (hm : m ≤ t) (hM : t ≤ M) :
    (c * (t / c) + o) ∈ labelRange c (c * (m / c) + o) (c * (M / c) + o) := by
  have key : ∀ A B D : Int, A ≤ B → B ≤ D →
      (c * B + o) ∈ labelRange c (c * A + o) (c * D + o) := by
    intro A B D hAB hBD
    unfold labelRange
    have hdiff : c * D + o - (c * A + o) = (D - A) * c := by ring
    rw [hdiff, Int.mul_ediv_cancel _ (ne_of_gt hc)]
    have h1 : (B - A).toNat ∈ List.range ((D - A).toNat + 1) := by
      refine List.mem_range.mpr ?_
      omega
    have h2 : c * A + o + c * (((B - A).toNat : Nat) : Int) = c * B + o := by
      rw [Int.toNat_of_nonneg (by omega : (0:Int) ≤ B - A)]
      ring
    have h3 := List.mem_map_of_mem (fun (k : Nat) => c * A + o + c * (k : Int)) h1
    simp only at h3
    rw [h2] at h3
    exact h3
  exact key _ _ _ (Int.ediv_le_ediv hc hm) (Int.ediv_le_ediv hc hM)

/-! ### Helper lemmas: listMin / listMax / meanOpt -/

theorem listMin_cons (x a : Int) (l : List Int) : listMin x (a :: l) = listMin (min x a) l := rfl

theorem listMax_cons (x a : Int) (l : List Int) : listMax x (a :: l) = listMax (max x a) l := rfl

theorem listMin_le_init (l : List Int) : ∀ x : Int, listMin x l ≤ x := by
  induction l with
  | nil => intro x; exact le_refl x
  | cons a t ih =>
    intro x
    rw [listMin_cons]
    exact le_trans (ih (min x a)) (min_le_left x a)

theorem listMin_le_mem (l : List Int) : ∀ x t : Int, t ∈ l → listMin x l ≤ t := by
  induction l with
  | nil => intro x t ht; cases ht
  | cons a s ih =>
    intro x t ht
    rw [listMin_cons]
    rcases List.mem_cons.mp ht with h | h
    · subst h
      exact le_trans (listMin_le_init s (min x t)) (min_le_right x t)
    · exact ih (min x a) t h

theorem init_le_listMax (l : List Int) : ∀ x : Int, x ≤ listMax x l := by
  induction l with
  | nil => intro x; exact le_refl x
  | cons a t ih =>
    intro x
    rw [listMax_cons]
    exact le_trans (le_max_left x a) (ih (max x a))

theorem mem_le_listMax (l : List Int) : ∀ x t : Int, t ∈ l → t ≤ listMax x l := by
  induction l with
  | nil => intro x t ht; cases ht
  | cons a s ih =>
    intro x t ht
    rw [listMax_cons]
    rcases List.mem_cons.mp ht with h | h
    · subst h
      exact le_trans (le_max_right x t) (init_le_listMax s (max x t))
    · exact ih (max x a) t h

theorem meanOpt_isSome_iff (xs : List (Option Frac)) :
    (meanOpt xs).isSome = true ↔ ∃ x ∈ xs, x.isSome = true := by
  unfold meanOpt
  cases h : xs.filterMap id with
  | nil =>
    simp only [Option.isSome_none, Bool.false_eq_true, false_iff]
    rintro ⟨x, hx, hs⟩
    obtain ⟨a, ha⟩ := Option.isSome_iff_exists.mp hs
    have hmem : a ∈ xs.filterMap id := List.mem_filterMap.mpr ⟨x, hx, by rw [ha]; rfl⟩
    rw [h] at hmem
    cases hmem
  | cons v vt =>
    simp only [Option.isSome_some, true_iff]
    have hv : v ∈ xs.filterMap id := by rw [h]; exact List.mem_cons_self _ _
    obtain ⟨x, hx, hfx⟩ := List.mem_filterMap.mp hv
    refine ⟨x, hx, ?_⟩
    have hx2 : x = some v := hfx
    rw [hx2]
    rfl

/-! ### Helper lemmas: bucket emission -/

theorem mem_resampleBy_iff {α : Type} (timeOf : α → Int) (f g : α → Option Frac)
    (lab : Int → Int) (c o L : Int) (rows : List α) (hc : 0 < c)
    (hlab : ∀ t, lab t = c * (t / c) + o) :
    (∃ bin ∈ resampleBy timeOf f g lab c rows,
        bin.label = L ∧ (bin.a.isSome = true ∨ bin.b.isSome = true))
      ↔ ∃ r ∈ rows, lab (timeOf r) = L ∧
          ((f r).isSome = true ∨ (g r).isSome = true) := by
  cases rows with
  | nil =>
    constructor
    · rintro ⟨bin, hbin, _⟩
      simp [resampleBy] at hbin
    · rintro ⟨r, hr, _⟩
      cases hr
  | cons r0 rs =>
    constructor
    · rintro ⟨bin, hbin, hL, hsome⟩
      simp only [resampleBy] at hbin
      obtain ⟨L2, hL2, hbe⟩ := List.mem_map.mp hbin
      rw [← hbe] at hL hsome
      have hLL : L2 = L := hL
      rcases hsome with hs | hs
      · have hs2 : (meanOpt ((binRowsBy timeOf lab L2 (r0 :: rs)).map f)).isSome = true := hs
        obtain ⟨y, hy, hys⟩ := (meanOpt_isSome_iff _).mp hs2
        obtain ⟨x, hx, hxy⟩ := List.mem_map.mp hy
        have hx2 := List.mem_filter.mp (by simpa only [binRowsBy] using hx)
        refine ⟨x, hx2.1, ?_, Or.inl ?_⟩
        · rw [← hLL]
          exact of_decide_eq_true hx2.2
        · rw [hxy]
          exact hys
      · have hs2 : (meanOpt ((binRowsBy timeOf lab L2 (r0 :: rs)).map g)).isSome = true := hs
        obtain ⟨y, hy, hys⟩ := (meanOpt_isSome_iff _).mp hs2
        obtain ⟨x, hx, hxy⟩ := List.mem_map.mp hy
        have hx2 := List.mem_filter.mp (by simpa only [binRowsBy] using hx)
        refine ⟨x, hx2.1, ?_, Or.inr ?_⟩
        · rw [← hLL]
          exact of_decide_eq_true hx2.2
        · rw [hxy]
          exact hys
    · rintro ⟨r, hr, hL, hsome⟩
      have hmin : listMin (timeOf r0) (rs.map timeOf) ≤ timeOf r := by
        rcases List.mem_cons.mp hr with h | h
        · rw [h]
          exact listMin_le_init _ _
        · exact listMin_le_mem _ _ _ (List.mem_map_of_mem timeOf h)
      have hmax : timeOf r ≤ listMax (timeOf r0) (rs.map timeOf) := by
        rcases List.mem_cons.mp hr with h | h
        · rw [h]
          exact init_le_listMax _ _
        · exact mem_le_listMax _ _ _ (List.mem_map_of_mem timeOf h)
      have hrange : lab (timeOf r) ∈
          labelRange c (lab (listMin (timeOf r0) (rs.map timeOf)))
            (lab (listMax (timeOf r0) (rs.map timeOf))) := by
        rw [hlab, hlab, hlab]
        exact scaledAdd_mem_labelRange c o _ _ _ hc hmin hmax
      have hrbin : r ∈ binRowsBy timeOf lab L (r0 :: rs) := by
        simp only [binRowsBy]
        exact List.mem_filter.mpr ⟨hr, decide_eq_true hL⟩
      refine ⟨⟨L, meanOpt ((binRowsBy timeOf lab L (r0 :: rs)).map f),
        meanOpt ((binRowsBy timeOf lab L (r0 :: rs)).map g)⟩, ?_, rfl, ?_⟩
      · simp only [resampleBy]
        refine List.mem_map.mpr ⟨L, ?_, rfl⟩
        rw [← hL]
        exact hrange
      · rcases hsome with hs | hs
        · exact Or.inl ((meanOpt_isSome_iff _).mpr ⟨f r, List.mem_map_of_mem f hrbin, hs⟩)
        · exact Or.inr ((meanOpt_isSome_iff _).mpr ⟨g r, List.mem_map_of_mem g hrbin, hs⟩)

theorem exists_mem_aggregateDevice_iff (c : Int) (d : String) (rows : List RawRow)
    (L : Int) (hc : 0 < c) :
    (∃ row ∈ aggregateDevice c d rows, row.time = L) ↔
      ∃ r ∈ rows, r.dev = d ∧ bucketLabelRight c r.time = L ∧
        (r.humidity.isSome = true ∨ r.temperature.isSome = true) := by
  have hiff := mem_resampleBy_iff (fun r : RawRow => r.time) (fun r => r.humidity)
      (fun r => r.temperature) (bucketLabelRight c) c c L
      (rows.filter (fun r => decide (r.dev = d))) hc (fun _ => rfl)
  constructor
  · rintro ⟨row, hrow, hT⟩
    simp only [aggregateDevice] at hrow
    obtain ⟨bin, hbin, hcond⟩ := List.mem_filterMap.mp hrow
    by_cases hb : (bin.a.isSome || bin.b.isSome) = true
    · rw [if_pos hb] at hcond
      have hrow2 : row = ⟨bin.label, d, bin.a, bin.b⟩ := (Option.some.inj hcond).symm
      have hLbin : bin.label = L := by
        rw [hrow2] at hT
        exact hT
      have hor : bin.a.isSome = true ∨ bin.b.isSome = true := by simpa using hb
      obtain ⟨r, hr, hLr, hsomer⟩ := hiff.mp ⟨bin, hbin, hLbin, hor⟩
      have hr2 := List.mem_filter.mp hr
      exact ⟨r, hr2.1, of_decide_eq_true hr2.2, hLr, hsomer⟩
    · rw [if_neg hb] at hcond
      cases hcond
  · rintro ⟨r, hr, hd, hL, hsome⟩
    have hrdd : r ∈ rows.filter (fun r => decide (r.dev = d)) :=
      List.mem_filter.mpr ⟨hr, decide_eq_true hd⟩
    obtain ⟨bin, hbin, hbL, hbs⟩ := hiff.mpr ⟨r, hrdd, hL, hsome⟩
    refine ⟨⟨bin.label, d, bin.a, bin.b⟩, ?_, hbL⟩
    simp only [aggregateDevice]
    refine List.mem_filterMap.mpr ⟨bin, hbin, ?_⟩
    rw [if_pos (by rcases hbs with h | h <;> simp [h] : (bin.a.isSome || bin.b.isSome) = true)]

theorem exists_mem_aggregateStation_iff (c : Int) (s : String) (rows : List StationRow)
    (L : Int) (hc : 0 < c) :
    (∃ row ∈ aggregateStation false c s rows, row.time = L) ↔
      ∃ r ∈ rows, r.station = s ∧ bucketLabelLeft c r.time = L ∧
        (r.humidity.isSome = true ∨ r.temperature.isSome = true) := by
  have hiff := mem_resampleBy_iff (fun r : StationRow => r.time) (fun r => r.humidity)
      (fun r => r.temperature) (bucketLabelLeft c) c 0 L
      (rows.filter (fun r => decide (r.station = s))) hc
      (fun t => by simp only [bucketLabelLeft, bucketStart, add_zero])
  constructor
  · rintro ⟨row, hrow, hT⟩
    simp only [aggregateStation, Bool.false_and, Bool.or_false] at hrow
    obtain ⟨bin, hbin, hcond⟩ := List.mem_filterMap.mp hrow
    by_cases hb : (bin.a.isSome || bin.b.isSome) = true
    · rw [if_pos hb] at hcond
      have hrow2 : row = ⟨bin.label, s, bin.a, bin.b,
          stationFmisid (rows.filter (fun r => decide (r.station = s)))⟩ :=
        (Option.some.inj hcond).symm
      have hLbin : bin.label = L := by
        rw [hrow2] at hT
        exact hT
      have hor : bin.a.isSome = true ∨ bin.b.isSome = true := by simpa using hb
      obtain ⟨r, hr, hLr, hsomer⟩ := hiff.mp ⟨bin, hbin, hLbin, hor⟩
      have hr2 := List.mem_filter.mp hr
      exact ⟨r, hr2.1, of_decide_eq_true hr2.2, hLr, hsomer⟩
    · rw [if_neg hb] at hcond
      cases hcond
  · rintro ⟨r, hr, hs, hL, hsome⟩
    have hrdd : r ∈ rows.filter (fun r => decide (r.station = s)) :=
      List.mem_filter.mpr ⟨hr, decide_eq_true hs⟩
    obtain ⟨bin, hbin, hbL, hbs⟩ := hiff.mpr ⟨r, hrdd, hL, hsome⟩
    refine ⟨⟨bin.label, s, bin.a, bin.b,
      stationFmisid (rows.filter (fun r => decide (r.station = s)))⟩, ?_, hbL⟩
    simp only [aggregateStation, Bool.false_and, Bool.or_false]
    refine List.mem_filterMap.mpr ⟨bin, hbin, ?_⟩
    rw [if_pos (by rcases hbs with h | h <;> simp [h] : (bin.a.isSome || bin.b.isSome) = true)]

/-! ### Helper lemmas: installation-window filter -/

theorem installFilter_cons (rows : List RawRow) (p : String × Timestamp)
    (ps : List (String × Timestamp)) :
    installFilter rows (p :: ps) = installFilter (rows.filter (keepRow p)) ps := rfl

theorem installFilter_eq_filter_all (cutoffs : List (String × Timestamp)) :
    ∀ rows : List RawRow,
      installFilter rows cutoffs =
        rows.filter (fun r => cutoffs.all (fun p => keepRow p r)) := by
  induction cutoffs with
  | nil =>
    intro rows
    simp [installFilter]
  | cons p ps ih =>
    intro rows
    rw [installFilter_cons, ih, List.filter_filter]
    refine List.filter_congr ?_
    intro x _
    simp only [List.all_cons]
    rw [Bool.and_comm]

theorem all_keepRow_eq_survives (cutoffs : List (String × Timestamp)) :
    (cutoffs.map (fun p => p.1)).Nodup → ∀ r : RawRow,
      cutoffs.all (fun p => keepRow p r) = survives cutoffs r := by
  induction cutoffs with
  | nil =>
    intro _ r
    rfl
  | cons p ps ih =>
    intro hnd r
    rw [List.map_cons] at hnd
    obtain ⟨hhead, htail⟩ := List.nodup_cons.mp hnd
    by_cases hdev : r.dev = p.1
    · have hfind : dictLookup (p :: ps) r.dev = some p.2 := by
        simp [dictLookup, hdev]
      have hsurv : survives (p :: ps) r = decide (p.2.utc ≤ r.time) := by
        simp [survives, hfind]
      have hkeep : keepRow p r = decide (p.2.utc ≤ r.time) := by
        simp [keepRow, hdev]
      have hall : ps.all (fun q => keepRow q r) = true := by
        rw [List.all_eq_true]
        intro q hq
        have hne : r.dev ≠ q.1 := by
          intro he
          exact hhead (by
            rw [hdev] at he
            rw [he]
            exact List.mem_map_of_mem (fun x => x.1) hq)
        simp [keepRow, hne]
      rw [List.all_cons, hall, hsurv, hkeep, Bool.and_true]
    · have hpred : ¬ p.1 = r.dev := fun he => hdev he.symm
      have hkeep : keepRow p r = true := by
        simp [keepRow, hdev]
      have hsurv : survives (p :: ps) r = survives ps r := by
        simp [survives, dictLookup, hpred]
      rw [List.all_cons, hkeep, Bool.true_and, ih htail r, hsurv]

/-! ### Helper lemmas: the install-date dict -/

theorem mem_keys_dictInsert {m : List (String × Timestamp)} {k : String}
    {v : Timestamp} {k2 : String}
    (h : k2 ∈ (dictInsert m k v).map (fun p => p.1)) :
    k2 = k ∨ k2 ∈ m.map (fun p => p.1) := by
  unfold dictInsert at h
  by_cases ha : m.any (fun p => p.1 == k) = true
  · rw [if_pos ha, List.map_map] at h
    obtain ⟨p, hp, hpe⟩ := List.mem_map.mp h
    by_cases he : p.1 = k
    · left
      rw [← hpe]
      simp [he]
    · right
      refine List.mem_map.mpr ⟨p, hp, ?_⟩
      rw [← hpe]
      simp [he]
  · rw [if_neg ha, List.map_append] at h
    rcases List.mem_append.mp h with h2 | h2
    · right
      exact h2
    · left
      simpa using h2

theorem dictLookup_eq_none_of_not_mem :
    ∀ {m : List (String × Timestamp)} {k : String},
      k ∉ m.map (fun p => p.1) → dictLookup m k = none := by
  intro m
  induction m with
  | nil =>
    intro k _
    rfl
  | cons p ps ih =>
    intro k h
    rw [List.map_cons] at h
    have h1 : ¬ p.1 = k := fun he => h (by rw [he]; exact List.mem_cons_self _ _)
    have h2 : k ∉ ps.map (fun p => p.1) := fun hm => h (List.mem_cons_of_mem _ hm)
    simp [dictLookup, h1, ih h2]

theorem dictLookup_map_overwrite {k k2 : String} {v : Timestamp} (h : k2 ≠ k) :
    ∀ m : List (String × Timestamp),
      dictLookup (m.map (fun p => if p.1 == k then (k, v) else p)) k2
        = dictLookup m k2 := by
  intro m
  induction m with
  | nil => rfl
  | cons p ps ih =>
    rw [List.map_cons]
    by_cases hpk : p.1 = k
    · have hb : (p.1 == k) = true := by simpa using hpk
      have h1 : ¬ ((((k, v) : String × Timestamp)).1 = k2) := fun he => h he.symm
      have h2 : ¬ (p.1 = k2) := by
        rw [hpk]
        exact fun he => h he.symm
      rw [if_pos hb]
      simp only [dictLookup]
      rw [if_neg h1, if_neg h2]
      exact ih
    · have hb : ¬ ((p.1 == k) = true) := by simpa using hpk
      rw [if_neg hb]
      by_cases hp2 : p.1 = k2
      · simp only [dictLookup]
        rw [if_pos hp2, if_pos hp2]
      · simp only [dictLookup]
        rw [if_neg hp2, if_neg hp2]
        exact ih

theorem dictLookup_append_single_ne {k k2 : String} {v : Timestamp} (h : k2 ≠ k) :
    ∀ m : List (String × Timestamp),
      dictLookup (m ++ [(k, v)]) k2 = dictLookup m k2 := by
  intro m
  induction m with
  | nil =>
    have h1 : ¬ (k = k2) := fun he => h he.symm
    simp [dictLookup, h1]
  | cons p ps ih =>
    by_cases hp2 : p.1 = k2
    · simp [dictLookup, hp2]
    · simp [dictLookup, hp2, ih]

theorem dictLookup_insert_ne {m : List (String × Timestamp)} {k : String}
    {v : Timestamp} {k2 : String} (h : k2 ≠ k) :
    dictLookup (dictInsert m k v) k2 = dictLookup m k2 := by
  unfold dictInsert
  by_cases ha : m.any (fun p => p.1 == k) = true
  · rw [if_pos ha]
    exact dictLookup_map_overwrite h m
  · rw [if_neg ha]
    exact dictLookup_append_single_ne h m

theorem dictLookup_insert_self (m : List (String × Timestamp)) (k : String)
    (v : Timestamp) : dictLookup (dictInsert m k v) k = some v := by
  unfold dictInsert
  by_cases ha : m.any (fun p => p.1 == k) = true
  · rw [if_pos ha]
    induction m with
    | nil => cases ha
    | cons p ps ih =>
      rw [List.map_cons]
      by_cases hpk : p.1 = k
      · have hb : (p.1 == k) = true := by simpa using hpk
        rw [if_pos hb]
        simp [dictLookup]
      · have hb : ¬ ((p.1 == k) = true) := by simpa using hpk
        have htail : ps.any (fun p => p.1 == k) = true := by
          rcases List.any_eq_true.mp ha with ⟨q, hq, hqe⟩
          rcases List.mem_cons.mp hq with h2 | h2
          · rw [h2] at hqe
            exact absurd hqe hb
          · exact List.any_eq_true.mpr ⟨q, h2, hqe⟩
        rw [if_neg hb]
        simp only [dictLookup]
        rw [if_neg hpk]
        exact ih htail
  · rw [if_neg ha]
    induction m with
    | nil =>
      simp [dictLookup]
    | cons p ps ih =>
      have hb : ¬ (p.1 == k) = true := by
        intro hk
        exact ha (List.any_eq_true.mpr ⟨p, List.mem_cons_self _ _, hk⟩)
      have hpk : ¬ p.1 = k := by simpa using hb
      have htail : ¬ ps.any (fun p => p.1 == k) = true := by
        intro hk
        rcases List.any_eq_true.mp hk with ⟨q, hq, hqe⟩
        exact ha (List.any_eq_true.mpr ⟨q, List.mem_cons_of_mem _ hq, hqe⟩)
      simp only [List.cons_append, dictLookup]
      rw [if_neg hpk]
      exact ih htail

/-! ### Helper lemmas: the registry fold -/

theorem registry_foldl_lookup_of_not_mem (parse : String → Option Timestamp)
    (indexTz : Option String) (l : List GeoRow) :
    ∀ (m : List (String × Timestamp)) (k : String), k ∉ l.map (fun g => g.id) →
      dictLookup (l.foldl (registryStepMap parse indexTz) m) k = dictLookup m k := by
  induction l with
  | nil =>
    intro m k _
    rfl
  | cons g gs ih =>
    intro m k h
    rw [List.map_cons] at h
    have hne : k ≠ g.id := fun he => h (by rw [he]; exact List.mem_cons_self _ _)
    have htail : k ∉ gs.map (fun g => g.id) := fun hm => h (List.mem_cons_of_mem _ hm)
    rw [List.foldl_cons, ih _ k htail]
    unfold registryStepMap
    cases cutoffOfRow parse indexTz g with
    | none => rfl
    | some cd => exact dictLookup_insert_ne hne

theorem keys_registry_foldl (parse : String → Option Timestamp)
    (indexTz : Option String) (l : List GeoRow) :
    ∀ (m : List (String × Timestamp)) (k : String),
      k ∈ (l.foldl (registryStepMap parse indexTz) m).map (fun p => p.1) →
        k ∈ m.map (fun p => p.1) ∨ k ∈ l.map (fun g => g.id) := by
  induction l with
  | nil =>
    intro m k h
    exact Or.inl h
  | cons g gs ih =>
    intro m k h
    rw [List.foldl_cons] at h
    rcases ih _ k h with h2 | h2
    · unfold registryStepMap at h2
      cases hc : cutoffOfRow parse indexTz g with
      | none =>
        rw [hc] at h2
        exact Or.inl h2
      | some cd =>
        rw [hc] at h2
        rcases mem_keys_dictInsert h2 with h3 | h3
        · right
          rw [h3]
          exact List.mem_cons_self _ _
        · exact Or.inl h3
    · exact Or.inr (List.mem_cons_of_mem _ h2)

/-! ### Helper lemmas: pipeline membership chains -/

theorem firstUniq_aux_subset (l : List String) :
    ∀ (acc : List String) (x : String),
      x ∈ l.foldl (fun acc x => if x ∈ acc then acc else acc ++ [x]) acc →
        x ∈ acc ∨ x ∈ l := by
  induction l with
  | nil =>
    intro acc x h
    exact Or.inl h
  | cons a t ih =>
    intro acc x h
    rw [List.foldl_cons] at h
    rcases ih _ x h with h2 | h2
    · by_cases ha : a ∈ acc
      · rw [if_pos ha] at h2
        exact Or.inl h2
      · rw [if_neg ha] at h2
        rcases List.mem_append.mp h2 with h3 | h3
        · exact Or.inl h3
        · right
          rw [List.mem_singleton.mp h3]
          exact List.mem_cons_self _ _
    · exact Or.inr (List.mem_cons_of_mem _ h2)

theorem firstUniq_subset (l : List String) (x : String) (h : x ∈ firstUniq l) : x ∈ l := by
  rcases firstUniq_aux_subset l [] x h with h2 | h2
  · cases h2
  · exact h2

theorem mem_of_mem_sortAgg {row : AggRow} {l : List AggRow}
    (h : row ∈ sortAggByTime l) : row ∈ l :=
  (List.perm_insertionSort timeLE l).subset h

theorem aggregateDevice_dev {c : Int} {d : String} {rows : List RawRow} {row : AggRow}
    (h : row ∈ aggregateDevice c d rows) : row.dev = d := by
  simp only [aggregateDevice] at h
  obtain ⟨bin, _, hcond⟩ := List.mem_filterMap.mp h
  by_cases hb : (bin.a.isSome || bin.b.isSome) = true
  · rw [if_pos hb] at hcond
    rw [← Option.some.inj hcond]
  · rw [if_neg hb] at hcond
    cases hcond

theorem dev_mem_of_mem_aggregatedRows {c : Int} {rows : List RawRow} {row : AggRow}
    (h : row ∈ aggregatedRows c rows) : row.dev ∈ rows.map (fun r => r.dev) := by
  unfold aggregatedRows at h
  obtain ⟨l, hl, hrow⟩ := List.mem_flatten.mp h
  obtain ⟨d, hd, hle⟩ := List.mem_map.mp hl
  rw [← hle] at hrow
  rw [aggregateDevice_dev hrow]
  exact firstUniq_subset _ _ hd

theorem mem_installFilter_subset {rows : List RawRow}
    {cutoffs : List (String × Timestamp)} {r : RawRow}
    (h : r ∈ installFilter rows cutoffs) : r ∈ rows := by
  rw [installFilter_eq_filter_all] at h
  exact (List.mem_filter.mp h).1

theorem dev_mem_ids_of_mem_deviceFiltered {df : RawFrame} {gdf : GeoFrame} {r : RawRow}
    (h : r ∈ deviceFiltered df gdf) : r.dev ∈ gdf.rows.map (fun g => g.id) := by
  unfold deviceFiltered at h
  have h2 := (List.mem_filter.mp h).2
  simpa using h2

/-! ### Claim C1 -/

/-- C1, counterexample: the claim says a reading falling exactly on a cadence
boundary belongs to the bucket labeled with that same boundary.  In the
device pipeline a reading at time 60 (a boundary of cadence 60, since
60 % 60 = 0) is summarized into the bucket labeled 120, and no bucket
labeled 60 is emitted: bins are closed on the left, `(t-c, t]` is wrong. -/
theorem C1_boundary_reading_cex :
    (aggregateDevice 60 "A" [⟨60, "A", none, some ⟨1, 1⟩⟩]).map (fun row => row.time)
        = [120]
      ∧ (60 : Int) % 60 = 0 ∧ (120 : Int) ≠ 60 := by
  decide

/-- C1, amended: in the device pipeline's Per-Group Aggregator, the bucket
labeled `L` at cadence `c` summarizes exactly the readings in the half-open
interval `[L - c, L)` (closed on the left, open on the right); equivalently a
reading at time t is assigned to the bucket labeled at the next cadence
boundary strictly greater than t. -/
theorem C1_bucket_interval (c L : Int) (r : RawRow) (rows : List RawRow)
    (hc : 0 < c) :
    r ∈ binMembersRight c L rows ↔
      r ∈ rows ∧ c ∣ L ∧ L - c ≤ r.time ∧ r.time < L := by
  unfold binMembersRight binRowsBy
  rw [List.mem_filter]
  constructor
  · rintro ⟨h1, h2⟩
    exact ⟨h1, (bucketLabelRight_eq_iff c r.time L hc).mp (of_decide_eq_true h2)⟩
  · rintro ⟨h1, h2⟩
    exact ⟨h1, decide_eq_true ((bucketLabelRight_eq_iff c r.time L hc).mpr h2)⟩

/-- C1, witness for the amended theorem at a concrete input. -/
theorem C1_bucket_interval_witness :
    (0 : Int) < 60 ∧
      ((⟨70, "A", none, none⟩ : RawRow) ∈
          binMembersRight 60 120 [⟨70, "A", none, none⟩] ↔
        (⟨70, "A", none, none⟩ : RawRow) ∈ [(⟨70, "A", none, none⟩ : RawRow)] ∧
          (60 : Int) ∣ 120 ∧ (120 : Int) - 60 ≤ 70 ∧ (70 : Int) < 120) :=
  ⟨by decide, C1_bucket_interval 60 120 ⟨70, "A", none, none⟩
    [⟨70, "A", none, none⟩] (by decide)⟩

/-! ### Claim C2 -/

/-- C2: the Installation-Window Filter (one dataset-wide filter pass per
device with a cutoff) keeps a device-filtered row if and only if its device
has no cutoff or the row's timestamp is at or after that device's cutoff —
i.e. the sequence of passes equals one pointwise filter with the per-row
`survives` predicate, so device A's cutoff never affects device B's rows. -/
theorem C2_install_window_filter (cutoffs : List (String × Timestamp))
    (rows : List RawRow) (hnd : (cutoffs.map (fun p => p.1)).Nodup) :
    installFilter rows cutoffs = rows.filter (survives cutoffs) := by
  rw [installFilter_eq_filter_all]
  exact List.filter_congr (fun r _ => all_keepRow_eq_survives cutoffs hnd r)

/-- C2, witness at a concrete input: one device with a cutoff at 100, one
without; the pre-cutoff row of the first device is the only one removed. -/
theorem C2_install_window_filter_witness :
    (([("A", ⟨100, none⟩)] : List (String × Timestamp)).map (fun p => p.1)).Nodup ∧
      installFilter [⟨50, "A", none, none⟩, ⟨150, "A", none, none⟩,
          ⟨50, "B", none, none⟩] [("A", ⟨100, none⟩)]
        = ([⟨50, "A", none, none⟩, ⟨150, "A", none, none⟩,
            ⟨50, "B", none, none⟩] : List RawRow).filter
            (survives [("A", ⟨100, none⟩)]) :=
  ⟨by decide, C2_install_window_filter [("A", ⟨100, none⟩)]
    [⟨50, "A", none, none⟩, ⟨150, "A", none, none⟩, ⟨50, "B", none, none⟩] (by decide)⟩

/-! ### Claim C3 -/

/-- C3, counterexample: a run whose raw/metadata id intersection is empty
because the raw input has zero rows raises ZeroDivisionError (line 129's
retained-fraction division), not NoMatchingDevicesError — so the claim as
stated (quantified over every empty-intersection run) fails. -/
theorem C3_empty_raw_cex :
    save_aggregated_data (fun _ => none) 60 ⟨true, none, []⟩
        ⟨true, [⟨"A", none, none⟩]⟩ = Except.error PipelineError.zeroDivisionError
      ∧ PipelineError.zeroDivisionError ≠ PipelineError.noMatchingDevices := by
  decide

/-- C3, amended: for every run with a nonempty raw input in which the raw
and metadata device ids have empty intersection, the pipeline raises
NoMatchingDevicesError (ValueError, line 133), the run aborts, and no
aggregated output artifact is written (the `Except.error` result carries no
artifact). -/
theorem C3_no_matching_devices (parse : String → Option Timestamp) (c : Int)
    (df : RawFrame) (gdf : GeoFrame) (h1 : df.hasDevId = true)
    (h2 : gdf.hasId = true) (h3 : df.rows ≠ [])
    (h4 : ∀ r ∈ df.rows, r.dev ∉ gdf.rows.map (fun g => g.id)) :
    save_aggregated_data parse c df gdf =
      Except.error PipelineError.noMatchingDevices := by
  have hfilter : deviceFiltered df gdf = [] := by
    unfold deviceFiltered
    refine List.filter_eq_nil_iff.mpr ?_
    intro r hr hcont
    exact h4 r hr (by simpa using hcont)
  unfold save_aggregated_data
  rw [if_neg (by simp [h1]), if_neg (by simp [h2]),
    if_neg (fun hl => h3 (List.length_eq_zero.mp hl)),
    if_pos (by rw [hfilter]; rfl)]

/-- C3, witness for the amended theorem: one raw row for device "B", metadata
knows only "A". -/
theorem C3_no_matching_devices_witness :
    (([⟨10, "B", none, some ⟨1, 1⟩⟩] : List RawRow) ≠ [] ∧
      (∀ r ∈ ([⟨10, "B", none, some ⟨1, 1⟩⟩] : List RawRow),
        r.dev ∉ ([⟨"A", none, none⟩] : List GeoRow).map (fun g => g.id))) ∧
    save_aggregated_data (fun _ => none) 60 ⟨true, none, [⟨10, "B", none, some ⟨1, 1⟩⟩]⟩
        ⟨true, [⟨"A", none, none⟩]⟩ = Except.error PipelineError.noMatchingDevices :=
  ⟨⟨by decide, by decide⟩,
    C3_no_matching_devices (fun _ => none) 60
      ⟨true, none, [⟨10, "B", none, some ⟨1, 1⟩⟩]⟩ ⟨true, [⟨"A", none, none⟩]⟩
      rfl rfl (by decide) (by decide)⟩

/-! ### Claim C4 -/

/-- C4: every row of the device pipeline's persisted artifact carries a
device id that belongs to the metadata id set, and the artifact's `dev-id`
categorical column has as categories exactly the sorted distinct metadata
ids — the artifact can never contain an id absent from the metadata. -/
theorem C4_output_ids_bounded (parse : String → Option Timestamp) (c : Int)
    (df : RawFrame) (gdf : GeoFrame) (ret : List AggRow) (art : Artifact)
    (h : save_aggregated_data parse c df gdf = Except.ok (ret, some art)) :
    (∀ row ∈ art.rows, row.dev ∈ gdf.rows.map (fun g => g.id)) ∧
      art.categories = sortedIds (gdf.rows.map (fun g => g.id)) := by
  simp only [save_aggregated_data] at h
  split_ifs at h with h1 h2 h3 h4 h5
  · have h6 := Except.ok.inj h
    have h7 := congrArg Prod.snd h6
    exact Option.noConfusion h7
  · have h6 := Except.ok.inj h
    have hart := Option.some.inj (congrArg Prod.snd h6)
    constructor
    · intro row hrow
      rw [← hart] at hrow
      have hrow2 : row ∈ sortAggByTime (aggregatedRows c
          (installFilter (deviceFiltered df gdf)
            (buildCutoffMap parse df.indexTz gdf.rows))) := hrow
      have h8 := dev_mem_of_mem_aggregatedRows (mem_of_mem_sortAgg hrow2)
      obtain ⟨r, hr, hrd⟩ := List.mem_map.mp h8
      rw [← hrd]
      exact dev_mem_ids_of_mem_deviceFiltered (mem_installFilter_subset hr)
    · rw [← hart]

/-- C4, witness: a full successful run; the artifact's rows all carry the
known id "A" and its category list is exactly `sortedIds ["A"]`. -/
theorem C4_output_ids_bounded_witness :
    save_aggregated_data (fun _ => none) 60 ⟨true, none, [⟨10, "A", none, some ⟨1, 1⟩⟩]⟩
        ⟨true, [⟨"A", none, none⟩]⟩
      = Except.ok ([⟨60, "A", none, some ⟨1, 1⟩⟩],
          some ⟨[⟨60, "A", none, some ⟨1, 1⟩⟩], ["A"]⟩) ∧
    ((∀ row ∈ (⟨[⟨60, "A", none, some ⟨1, 1⟩⟩], ["A"]⟩ : Artifact).rows,
        row.dev ∈ ([⟨"A", none, none⟩] : List GeoRow).map (fun g => g.id)) ∧
      (⟨[⟨60, "A", none, some ⟨1, 1⟩⟩], ["A"]⟩ : Artifact).categories
        = sortedIds (([⟨"A", none, none⟩] : List GeoRow).map (fun g => g.id))) :=
  ⟨by decide,
    C4_output_ids_bounded (fun _ => none) 60
      ⟨true, none, [⟨10, "A", none, some ⟨1, 1⟩⟩]⟩ ⟨true, [⟨"A", none, none⟩]⟩
      [⟨60, "A", none, some ⟨1, 1⟩⟩] ⟨[⟨60, "A", none, some ⟨1, 1⟩⟩], ["A"]⟩
      (by decide)⟩

/-! ### Claim C5 -/

/-- C5, counterexample: the station pipeline resamples with pandas's default
`label='left'` (line 283 passes no `label` argument): a reading at
`fmiEpoch + 10` for an allow-listed station at cadence 60 is emitted in a
bucket labeled `fmiEpoch` — the left edge of its interval — not the right
edge `fmiEpoch + 60` the claim requires. -/
theorem C5_station_left_label_cex :
    (combine_fmi_data_aggregated false 60
          [⟨fmiEpoch + 10, "Helsinki Kumpula", none, some ⟨1, 1⟩, some ⟨5, 1⟩⟩]).map
        (fun row => row.time) = [fmiEpoch]
      ∧ fmiEpoch % 60 = 0 ∧ fmiEpoch ≠ fmiEpoch + 60 := by
  decide

/-- C5, amended: the station pipeline's per-group aggregation labels every
bucket at the LEFT edge of its interval: the bucket labeled `L` at cadence
`c` summarizes exactly the station readings in `[L, L + c)`. -/
theorem C5_station_bucket_interval (c L : Int) (r : StationRow)
    (rows : List StationRow) (hc : 0 < c) :
    r ∈ binMembersLeft c L rows ↔
      r ∈ rows ∧ c ∣ L ∧ L ≤ r.time ∧ r.time < L + c := by
  unfold binMembersLeft binRowsBy
  rw [List.mem_filter]
  constructor
  · rintro ⟨h1, h2⟩
    exact ⟨h1, (bucketLabelLeft_eq_iff c r.time L hc).mp (of_decide_eq_true h2)⟩
  · rintro ⟨h1, h2⟩
    exact ⟨h1, decide_eq_true ((bucketLabelLeft_eq_iff c r.time L hc).mpr h2)⟩

/-- C5, witness for the amended theorem at a concrete input. -/
theorem C5_station_bucket_interval_witness :
    (0 : Int) < 60 ∧
      ((⟨70, "Helsinki Kumpula", none, none, none⟩ : StationRow) ∈
          binMembersLeft 60 60 [⟨70, "Helsinki Kumpula", none, none, none⟩] ↔
        (⟨70, "Helsinki Kumpula", none, none, none⟩ : StationRow) ∈
            [(⟨70, "Helsinki Kumpula", none, none, none⟩ : StationRow)] ∧
          (60 : Int) ∣ 60 ∧ (60 : Int) ≤ 70 ∧ (70 : Int) < 60 + 60) :=
  ⟨by decide, C5_station_bucket_interval 60 60
    ⟨70, "Helsinki Kumpula", none, none, none⟩
    [⟨70, "Helsinki Kumpula", none, none, none⟩] (by decide)⟩

/-! ### Claim C6 -/

/-- C6, counterexample: in the station pipeline with a numeric `fmisid`
column, `fmisid` belongs to `numeric_columns` and is overwritten with the
(non-null) first observed value before `dropna(how="all",
subset=numeric_columns)`, so a bucket whose metric columns are all null (no
readings in `[fmiEpoch+60, fmiEpoch+120)`) is still emitted. -/
theorem C6_allnull_bucket_emitted_cex :
    (combine_fmi_data_aggregated true 60
        [⟨fmiEpoch + 10, "Helsinki Kumpula", none, some ⟨1, 1⟩, some ⟨5, 1⟩⟩,
         ⟨fmiEpoch + 130, "Helsinki Kumpula", none, some ⟨3, 1⟩, some ⟨5, 1⟩⟩]).any
      (fun row => decide (row.time = fmiEpoch + 60) && row.humidity.isNone &&
        row.temperature.isNone) = true := by
  decide

/-- C6, amended: a resampled bucket row is emitted iff at least one metric
column is non-null after mean aggregation — in the device pipeline always,
and in the station pipeline when the `fmisid` identifier column is not
numeric (otherwise the overwritten non-null `fmisid` keeps every bucket,
see the counterexample). -/
theorem C6_allnull_bucket_dropped :
    (∀ (c : Int) (rows : List RawRow) (d : String) (L : Int), 0 < c →
      ((∃ row ∈ aggregateDevice c d rows, row.time = L) ↔
        ∃ r ∈ rows, r.dev = d ∧ bucketLabelRight c r.time = L ∧
          (r.humidity.isSome = true ∨ r.temperature.isSome = true))) ∧
    (∀ (c : Int) (rows : List StationRow) (s : String) (L : Int), 0 < c →
      ((∃ row ∈ aggregateStation false c s rows, row.time = L) ↔
        ∃ r ∈ rows, r.station = s ∧ bucketLabelLeft c r.time = L ∧
          (r.humidity.isSome = true ∨ r.temperature.isSome = true))) :=
  ⟨fun c rows d L hc => exists_mem_aggregateDevice_iff c d rows L hc,
   fun c rows s L hc => exists_mem_aggregateStation_iff c s rows L hc⟩

/-- C6, witness: the device part of the amended theorem instantiated at a
concrete input (a reading with a non-null temperature emits bucket 120). -/
theorem C6_allnull_bucket_dropped_witness :
    (0 : Int) < 60 ∧
      ((∃ row ∈ aggregateDevice 60 "A" [⟨70, "A", none, some ⟨1, 1⟩⟩], row.time = 120) ↔
        ∃ r ∈ ([⟨70, "A", none, some ⟨1, 1⟩⟩] : List RawRow), r.dev = "A" ∧
          bucketLabelRight 60 r.time = 120 ∧
          (r.humidity.isSome = true ∨ r.temperature.isSome = true)) :=
  ⟨by decide, C6_allnull_bucket_dropped.1 60 [⟨70, "A", none, some ⟨1, 1⟩⟩] "A" 120
    (by decide)⟩

/-! ### Claim C7 -/

/-- C7: for every metadata record (ids unique, per the data model), the
derived cutoff in `device_install_dates` is exactly `cutoffOfRow`: the
parsed install date — primary field `Date_installed` if present, else
`Asennettu_pvm` — plus one day, timezone-normalized against the raw index
(`normalizeCutoff`); a record with neither field present, or an
unparseable one, has no cutoff. -/
theorem C7_cutoff_derivation (parse : String → Option Timestamp)
    (indexTz : Option String) (gdf : List GeoRow) (g : GeoRow)
    (hnd : (gdf.map (fun x => x.id)).Nodup) (hg : g ∈ gdf) :
    dictLookup (buildCutoffMap parse indexTz gdf) g.id
      = cutoffOfRow parse indexTz g := by
  obtain ⟨pre, post, rfl⟩ := List.append_of_mem hg
  have hmap2 : (pre ++ g :: post).map (fun x => x.id)
      = pre.map (fun x => x.id) ++ g.id :: post.map (fun x => x.id) := by simp
  rw [hmap2] at hnd
  obtain ⟨hnd1, hnd2, hdisj⟩ := List.nodup_append.mp hnd
  have hpre : g.id ∉ pre.map (fun x => x.id) :=
    fun hm => hdisj hm (List.mem_cons_self _ _)
  have hpost : g.id ∉ post.map (fun x => x.id) := (List.nodup_cons.mp hnd2).1
  unfold buildCutoffMap
  rw [List.foldl_append, List.foldl_cons]
  rw [registry_foldl_lookup_of_not_mem parse indexTz post _ g.id hpost]
  have hkeys : g.id ∉ (pre.foldl (registryStepMap parse indexTz) []).map
      (fun p => p.1) := by
    intro hk
    rcases keys_registry_foldl parse indexTz pre [] g.id hk with h2 | h2
    · simp at h2
    · exact hpre h2
  unfold registryStepMap
  cases hc : cutoffOfRow parse indexTz g with
  | none => exact dictLookup_eq_none_of_not_mem hkeys
  | some cd => exact dictLookup_insert_self _ _ _

/-- C7, witness: metadata with one dated record (primary field) and one
undated record, against a parse function that knows the one date; the dated
record's cutoff is its parsed date plus one day (with the raw index naive,
no timezone adjustment applies), the undated record has none. -/
theorem C7_cutoff_derivation_witness :
    (([⟨"A", some "2024-05-01", none⟩, ⟨"B", none, none⟩] : List GeoRow).map
        (fun x => x.id)).Nodup ∧
      dictLookup (buildCutoffMap
          (fun s => if s = "2024-05-01" then some ⟨1714521600, none⟩ else none) none
          [⟨"A", some "2024-05-01", none⟩, ⟨"B", none, none⟩])
        (GeoRow.id ⟨"A", some "2024-05-01", none⟩)
        = cutoffOfRow
            (fun s => if s = "2024-05-01" then some ⟨1714521600, none⟩ else none) none
            ⟨"A", some "2024-05-01", none⟩ :=
  ⟨by decide,
    C7_cutoff_derivation
      (fun s => if s = "2024-05-01" then some ⟨1714521600, none⟩ else none) none
      [⟨"A", some "2024-05-01", none⟩, ⟨"B", none, none⟩]
      ⟨"A", some "2024-05-01", none⟩ (by decide) (by decide)⟩

/-! ### Claim C8 -/

/-- C8: a metadata record whose install-date value is present but
unparseable is localized: the resulting cutoff dict is identical to the one
built without that record (no other device is affected), a parse-failure
warning for that device is recorded, the run continues (the registry is a
total function), and the device itself ends with no cutoff. -/
theorem C8_parse_failure_localized (parse : String → Option Timestamp)
    (indexTz : Option String) (pre post : List GeoRow) (g : GeoRow) (s : String)
    (hf : installDateOf g = some s) (hp : parse s = none)
    (hnd : ((pre ++ g :: post).map (fun x => x.id)).Nodup) :
    buildCutoffMap parse indexTz (pre ++ g :: post)
        = buildCutoffMap parse indexTz (pre ++ post)
      ∧ LogEvent.parseError g.id s ∈ buildLog parse (pre ++ g :: post)
      ∧ dictLookup (buildCutoffMap parse indexTz (pre ++ g :: post)) g.id = none := by
  have hcut : cutoffOfRow parse indexTz g = none := by
    simp only [cutoffOfRow, hf, hp]
  have hstep : ∀ m, registryStepMap parse indexTz m g = m := by
    intro m
    unfold registryStepMap
    rw [hcut]
  have hmapeq : buildCutoffMap parse indexTz (pre ++ g :: post)
      = buildCutoffMap parse indexTz (pre ++ post) := by
    unfold buildCutoffMap
    rw [List.foldl_append, List.foldl_cons, hstep, ← List.foldl_append]
  have hmap2 : (pre ++ g :: post).map (fun x => x.id)
      = pre.map (fun x => x.id) ++ g.id :: post.map (fun x => x.id) := by simp
  rw [hmap2] at hnd
  obtain ⟨hnd1, hnd2, hdisj⟩ := List.nodup_append.mp hnd
  have hpre : g.id ∉ pre.map (fun x => x.id) :=
    fun hm => hdisj hm (List.mem_cons_self _ _)
  have hpost : g.id ∉ post.map (fun x => x.id) := (List.nodup_cons.mp hnd2).1
  refine ⟨hmapeq, ?_, ?_⟩
  · unfold buildLog
    refine List.mem_flatten.mpr ⟨registryStepLog parse g, List.mem_map_of_mem _ ?_, ?_⟩
    · exact List.mem_append.mpr (Or.inr (List.mem_cons_self _ _))
    · simp only [registryStepLog, hf, hp]
      exact List.mem_singleton.mpr rfl
  · rw [hmapeq]
    apply dictLookup_eq_none_of_not_mem
    intro hk
    unfold buildCutoffMap at hk
    rcases keys_registry_foldl parse indexTz (pre ++ post) [] g.id hk with h2 | h2
    · simp at h2
    · rw [List.map_append] at h2
      rcases List.mem_append.mp h2 with h3 | h3
      · exact hpre h3
      · exact hpost h3

/-- C8, witness: record "C" carries the unparseable value "bad" between
records "A" and "B"; the dict equals the one built without "C", the warning
is logged, and "C" has no cutoff. -/
theorem C8_parse_failure_localized_witness :
    (installDateOf ⟨"C", some "bad", none⟩ = some "bad" ∧
      ((([⟨"A", none, none⟩] ++ ⟨"C", some "bad", none⟩ :: [⟨"B", none, none⟩])
        : List GeoRow).map (fun x => x.id)).Nodup) ∧
    (buildCutoffMap (fun _ => none) none
          ([⟨"A", none, none⟩] ++ ⟨"C", some "bad", none⟩ :: [⟨"B", none, none⟩])
        = buildCutoffMap (fun _ => none) none ([⟨"A", none, none⟩] ++ [⟨"B", none, none⟩])
      ∧ LogEvent.parseError "C" "bad" ∈ buildLog (fun _ => none)
          ([⟨"A", none, none⟩] ++ ⟨"C", some "bad", none⟩ :: [⟨"B", none, none⟩])
      ∧ dictLookup (buildCutoffMap (fun _ => none) none
          ([⟨"A", none, none⟩] ++ ⟨"C", some "bad", none⟩ :: [⟨"B", none, none⟩])) "C"
          = none) :=
  ⟨⟨by decide, by decide⟩,
    C8_parse_failure_localized (fun _ => none) none [⟨"A", none, none⟩]
      [⟨"B", none, none⟩] ⟨"C", some "bad", none⟩ "bad" (by decide) rfl (by decide)⟩

/-! ### Claim C9 -/

/-- C9, counterexample: two devices "B" (first appearing) and "A" produce
rows with the same bucket timestamp 60; the sorted output keeps "B" before
"A" although "A" is the smaller entity key — `sort_index()` sorts by the
time index only, with no entity-key secondary sort. -/
theorem C9_tie_order_cex :
    (sortAggByTime (aggregatedRows 60
          [⟨10, "B", none, some ⟨2, 1⟩⟩, ⟨20, "A", none, some ⟨4, 1⟩⟩])).map
        (fun row => (row.time, row.dev)) = [(60, "B"), (60, "A")]
      ∧ strLtB "A" "B" = true := by
  decide

/-- C9, amended: the Per-Group Aggregator concatenates all device
partitions' results (devices in first-appearance order) and sorts ascending
by bucket timestamp only: the output is a time-sorted permutation of the
concatenation, and rows with equal timestamps are not ordered by entity
key. -/
theorem C9_sorted_by_time_perm (c : Int) (rows : List RawRow) :
    List.Sorted timeLE (sortAggByTime (aggregatedRows c rows)) ∧
      (sortAggByTime (aggregatedRows c rows)).Perm (aggregatedRows c rows) :=
  ⟨List.sorted_insertionSort timeLE _, List.perm_insertionSort timeLE _⟩

/-! ### Claim C10 -/

/-- C10: a raw input that has the `dev-id` column but zero rows makes the
device pipeline raise ZeroDivisionError while printing the retained-row
fraction (line 129), before the empty-overlap check of line 132 is reached;
NoMatchingDevicesError is never the error raised for an empty raw input. -/
theorem C10_empty_raw_zero_division (parse : String → Option Timestamp) (c : Int)
    (tz : Option String) (gdf : GeoFrame) (h2 : gdf.hasId = true) :
    save_aggregated_data parse c ⟨true, tz, []⟩ gdf
        = Except.error PipelineError.zeroDivisionError
      ∧ PipelineError.zeroDivisionError ≠ PipelineError.noMatchingDevices := by
  refine ⟨?_, by decide⟩
  unfold save_aggregated_data
  rw [if_neg (by simp), if_neg (by simp [h2]), if_pos (by rfl)]

/-- C10, witness at a concrete metadata frame. -/
theorem C10_empty_raw_zero_division_witness :
    (⟨true, [⟨"A", none, none⟩]⟩ : GeoFrame).hasId = true ∧
      (save_aggregated_data (fun _ => none) 60 ⟨true, none, []⟩
          ⟨true, [⟨"A", none, none⟩]⟩
          = Except.error PipelineError.zeroDivisionError
        ∧ PipelineError.zeroDivisionError ≠ PipelineError.noMatchingDevices) :=
  ⟨rfl, C10_empty_raw_zero_division (fun _ => none) 60 none
    ⟨true, [⟨"A", none, none⟩]⟩ rfl⟩

